import Mathlib

/-!
Shallow embedding of the attribute-bridging layer of Kitware/vtk-override.

The definitions below are translated from the Python sources:
  * `src/vtk_override/utils/ndarray.py`  (class `vtk_ndarray`)
  * `src/vtk_override/datamodel/fields.py`
      (`FieldDataBase`, `CompositeDataSetAttributes`)
Machine details that the claims do not touch (dtype zoo, VTK wrapping of
columns, string columns) are collapsed to integer-valued columns; array
strides are kept in elements, mirroring the source's `strides / itemsize`.
-/

namespace VtkOverride

/-- `FieldAssociation` enum from `utils/arrays.py` (also standing in for the
`vtkDataObject.POINT/CELL/ROW/...` association constants used by
`FieldDataBase.set_array`). -/
inductive FieldAssociation where
  | POINT
  | CELL
  | NONE
  | ROW
deriving DecidableEq, Repr

/-- A `vtkAbstractArray` physical buffer; only its `Modified()` counter is
observable for the claims. -/
structure VtkBuffer where
  modifiedCount : Nat
deriving DecidableEq, Repr

/-- The owning dataset / geometric entity; only its `Modified()` counter is
observable for the claims. -/
structure OwningDataset where
  modifiedCount : Nat
deriving DecidableEq, Repr

/-- The provenance attributes a `vtk_ndarray` carries
(`dataset`, `association`, `VTKObject`).

`dataset` models the `self.dataset` attribute:
  * `none`                — the attribute is `None` (detached view);
  * `some none`           — a `vtkWeakReference` whose referent has been
                            destroyed (`Get()` returns `None`);
  * `some (some d)`       — a `vtkWeakReference` to the live dataset `d`. -/
structure Provenance where
  dataset : Option (Option OwningDataset)
  association : FieldAssociation
  VTKObject : Option VtkBuffer
deriving DecidableEq, Repr

/-- A `vtk_ndarray` view together with the state it aliases: the element
data of the aliased column plus the provenance attributes. -/
structure ViewWorld where
  data : List Int
  prov : Provenance
deriving DecidableEq, Repr

/-- Observable effects of `vtk_ndarray.__setitem__`, in the order they are
triggered. -/
inductive Evt where
  | store (key : Nat) (value : Int)
  | bufferModified
  | datasetModified
deriving DecidableEq, Repr

/-- `vtk_ndarray.__setitem__` (ndarray.py lines 65-79): store the element,
then `self.VTKObject.Modified()` if `VTKObject` is not `None`, then
`dataset.Get().Modified()` if the weak reference exists and its referent is
alive.  The returned event list records the order of the triggered
effects. -/
def vtk_ndarray.setitem (w : ViewWorld) (key : Nat) (value : Int) :
    ViewWorld × List Evt :=
  -- super().__setitem__(key, value)
  let data1 := w.data.set key value
  -- if self.VTKObject is not None: self.VTKObject.Modified()
  let vtk1 : Option VtkBuffer :=
    w.prov.VTKObject.map (fun b => { b with modifiedCount := b.modifiedCount + 1 })
  let evts1 : List Evt :=
    match w.prov.VTKObject with
    | some _ => [Evt.store key value, Evt.bufferModified]
    | none => [Evt.store key value]
  -- dataset = self.dataset; if dataset is not None and dataset.Get(): ...Modified()
  match w.prov.dataset with
  | some (some d) =>
      (⟨data1, ⟨some (some { d with modifiedCount := d.modifiedCount + 1 }),
        w.prov.association, vtk1⟩⟩, evts1 ++ [Evt.datasetModified])
  | other => (⟨data1, ⟨other, w.prov.association, vtk1⟩⟩, evts1)

/-- The provenance of a freshly detached array: `__array_finalize__` writes
`self.dataset = None`, `self.association = FieldAssociation.NONE`,
`self.VTKObject = None`. -/
def detachedProvenance : Provenance :=
  ⟨none, FieldAssociation.NONE, none⟩

/-- `vtk_ndarray.__array_finalize__` (ndarray.py lines 46-63), reduced to
the provenance decision it makes: when `np.shares_memory(self, obj)` the
three provenance attributes are copied from the parent (`getattr` with
`None` / `FieldAssociation.NONE` defaults, which the `Provenance` record of
a plain parent already carries); otherwise they are reset to the detached
values. -/
def vtk_ndarray.arrayFinalize (sharesMemory : Bool) (parent : Provenance) :
    Provenance :=
  if sharesMemory then parent else detachedProvenance

/-! ### numpy ndarray model

`FieldDataBase.set_array` (fields.py lines 61-126) inspects its input's
`shape`, `strides` (divided by `itemsize`, so kept in elements here),
C-contiguity flag, `flatten()` and `reshape`.  An `NpArray` is a strided
view into a flat integer buffer. -/

/-- A numpy ndarray of integer entries: shape, per-axis element strides,
base offset into the flat backing buffer. -/
structure NpArray where
  shape : List Nat
  strides : List Nat
  offset : Nat
  buf : List Int
deriving DecidableEq, Repr

namespace NpArray

/-- Element at a multi-index: base offset plus the stride-weighted index. -/
def elem (a : NpArray) (ix : List Nat) : Int :=
  a.buf.getD (a.offset + (List.zipWith (· * ·) ix a.strides).sum) 0

/-- C-order (row-major) strides of a shape: for `[n, r, c]` they are
`[r*c, c, 1]`. -/
def cStrides : List Nat → List Nat
  | [] => []
  | _ :: rest => rest.prod :: cStrides rest

/-- `flags.contiguous` (C-contiguity): the strides are exactly the C-order
strides of the shape.  (numpy's special-casing of degenerate extents is not
modelled; the claims do not exercise it.) -/
def contiguous (a : NpArray) : Bool :=
  a.strides = cStrides a.shape

/-- The multi-index of flat C-order position `p` in an array of the given
shape: for `[n, r, c]` position `i*(r*c) + j*c + k` maps to `[i, j, k]`. -/
def unflatten : List Nat → Nat → List Nat
  | [], _ => []
  | _ :: rest, p => p / rest.prod :: unflatten rest (p % rest.prod)

/-- The C-order traversal of the array's elements: numpy `flatten()`, and
the buffer produced by `numpy.ascontiguousarray`. -/
def tolist (a : NpArray) : List Int :=
  (List.range a.shape.prod).map (fun p => a.elem (unflatten a.shape p))

/-- `numpy.ascontiguousarray`: identity on C-contiguous arrays, otherwise a
fresh C-order copy. -/
def ascontiguousarray (a : NpArray) : NpArray :=
  if a.contiguous then a else ⟨a.shape, cStrides a.shape, 0, a.tolist⟩

/-- `narray.transpose(0, 2, 1)` on a rank-3 array: swap the extents and
strides of the last two axes (a view; the buffer is untouched). -/
def transpose021 (a : NpArray) : NpArray :=
  match a.shape, a.strides with
  | [n, r, c], [s0, s1, s2] => ⟨[n, c, r], [s0, s2, s1], a.offset, a.buf⟩
  | _, _ => a

/-- `narray.reshape(shape[0], shape[1]*shape[2])` where `shape` is the saved
rank-3 shape; applied by the source only after `ascontiguousarray`, so it
reinterprets the buffer with C-order strides. -/
def reshapeFlat2 (a : NpArray) (savedShape : List Nat) : NpArray :=
  match savedShape with
  | [n, r, c] => ⟨[n, r * c], [r * c, 1], a.offset, a.buf⟩
  | _ => a

end NpArray

/-! ### FieldDataBase -/

/-- The flattened column handed to `dsa.numpyTovtkDataArray` and `AddArray`:
the final shape together with the C-order element data. -/
structure StoredArray where
  shape : List Nat
  data : List Int
deriving DecidableEq, Repr

/-- A `vtkFieldData` collection: named columns in index order.  (Unnamed
arrays, which `keys()` skips, are not modelled; every stored column has a
name.) -/
structure FieldData where
  arrays : List (String × StoredArray)
deriving DecidableEq, Repr

/-- The counts `set_array` queries on `self.dataset`
(`GetNumberOfPoints`, `GetNumberOfCells`, `GetNumberOfColumns`,
`GetNumberOfRows`). -/
structure DatasetDims where
  nPoints : Nat
  nCells : Nat
  nColumns : Nat
  nRows : Nat
deriving DecidableEq, Repr

/-- A value passed to `FieldDataBase.set_array`: the `dsa.NoneArray`
sentinel, a scalar (a non-ndarray numeric/boolean value, or a 0-d ndarray —
both take the `numpy.ndim(narray) == 0` branch), or an ndarray. -/
inductive PyValue where
  | noneArray
  | scalar (v : Int)
  | array (a : NpArray)
deriving DecidableEq, Repr

/-- The `arrLength` computation of `set_array` (fields.py lines 67-77):
point count for POINT, cell count for CELL, row count for ROW tables with
columns; otherwise the input's own leading dimension (1 for non-ndarray
input). -/
def FieldDataBase.arrLength (assoc : FieldAssociation) (dims : DatasetDims)
    (input : PyValue) : Nat :=
  if assoc = FieldAssociation.POINT then dims.nPoints
  else if assoc = FieldAssociation.CELL then dims.nCells
  else if assoc = FieldAssociation.ROW ∧ dims.nColumns > 0 then dims.nRows
  else
    match input with
    | PyValue.array a => a.shape.headD 0
    | _ => 1

/-- The length-mismatch fixup of `set_array` (fields.py lines 85-91): when
the leading dimension differs from `arrLength`, allocate an
`(arrLength, components)` array — `components` being the product of **all**
input dimensions — and broadcast the flattened input into every row
(`tmparray[:] = narray.flatten()`, a numpy broadcast of a
`components`-vector over `arrLength` rows, which always succeeds). -/
def FieldDataBase.broadcastFixup (arrLength : Nat) (a : NpArray) : NpArray :=
  let components := a.shape.prod
  ⟨[arrLength, components], [components, 1], 0,
    (List.range arrLength).flatMap (fun _ => a.tolist)⟩

/-- The rank-3 stride test of `set_array` (fields.py lines 101-106), with
strides already divided by `itemsize`:
`(strides[1] == 3 and strides[2] == 1) or
 (strides[1] == 1 and strides[2] == 3 and not contiguous)`. -/
def FieldDataBase.strideTest (a : NpArray) : Bool :=
  match a.strides with
  | [_, s1, s2] => ((s1 == 3) && (s2 == 1)) || ((s1 == 1) && (s2 == 3) && !a.contiguous)
  | _ => false

/-- The array-fixup pipeline of `set_array` (fields.py lines 79-115) for an
ndarray input: scalar fill for 0-d input; leading-dimension broadcast
fixup; for rank-3 input the stride test and possible transpose of the last
two axes; contiguity copy; and the final flatten of matrices to vectors.
The result is the column handed to `AddArray`. -/
def FieldDataBase.processArray (arrLength : Nat) (a0 : NpArray) : StoredArray :=
  if a0.shape.length = 0 then
    -- numpy.ndim(narray) == 0: tmparray = empty(arrLength); tmparray.fill(narray)
    ⟨[arrLength], List.replicate arrLength (a0.elem [])⟩
  else
    let a1 :=
      if a0.shape.headD 0 ≠ arrLength then FieldDataBase.broadcastFixup arrLength a0
      else a0
    -- shape = narray.shape  (saved before the transpose)
    let savedShape := a1.shape
    let a2 :=
      if savedShape.length = 3 ∧ FieldDataBase.strideTest a1 then a1.transpose021
      else a1
    -- if not narray.flags.contiguous: narray = ascontiguousarray(narray)
    let a3 := if a2.contiguous then a2 else a2.ascontiguousarray
    -- if len(shape) == 3: narray = narray.reshape(shape[0], shape[1]*shape[2])
    let a4 :=
      if savedShape.length = 3 then a3.reshapeFlat2 savedShape
      else a3
    ⟨a4.shape, a4.tolist⟩

/-- `vtkFieldData::AddArray`: an array whose name is already present
replaces the existing entry in place; otherwise it is appended. -/
def FieldData.addArray (fd : FieldData) (name : String) (col : StoredArray) :
    FieldData :=
  if fd.arrays.any (fun p => p.1 == name) then
    ⟨fd.arrays.map (fun p => if p.1 == name then (name, col) else p)⟩
  else
    ⟨fd.arrays ++ [(name, col)]⟩

/-- `FieldDataBase.set_array` (fields.py lines 61-126): the NoneArray
sentinel is a no-op; a scalar is filled to `arrLength` copies; an ndarray
goes through the fixup pipeline; the resulting column is added under
`name`. -/
def FieldDataBase.set_array (assoc : FieldAssociation) (dims : DatasetDims)
    (fd : FieldData) (name : String) (input : PyValue) : FieldData :=
  match input with
  | PyValue.noneArray => fd
  | PyValue.scalar v =>
      let L := FieldDataBase.arrLength assoc dims input
      fd.addArray name ⟨[L], List.replicate L v⟩
  | PyValue.array a =>
      let L := FieldDataBase.arrLength assoc dims input
      fd.addArray name (FieldDataBase.processArray L a)

/-- An index passed to `FieldDataBase.get_array`: a Python `int` or an
array name. -/
inductive ArrayKey where
  | idx (i : Int)
  | name (s : String)
deriving DecidableEq, Repr

/-- The observable outcome of `FieldDataBase.get_array`: an `IndexError`,
the `dsa.NoneArray` sentinel, or a named array. -/
inductive GetResult where
  | indexError
  | noneArray
  | array (name : String) (col : StoredArray)
deriving DecidableEq, Repr

/-- `FieldDataBase.get_array` (fields.py lines 27-39): an integer index
`>= GetNumberOfArrays()` raises `IndexError`; otherwise `GetArray` (and the
`GetAbstractArray` fallback — the two coincide in this integer-column
model) either finds the column — by valid index or by name — or returns
null, in which case the `dsa.NoneArray` sentinel is returned. -/
def FieldData.get_array (fd : FieldData) (key : ArrayKey) : GetResult :=
  match key with
  | ArrayKey.idx i =>
      if (fd.arrays.length : Int) ≤ i then GetResult.indexError
      else
        match (if 0 ≤ i then fd.arrays.get? i.toNat else none) with
        | some (nm, col) => GetResult.array nm col
        | none => GetResult.noneArray
  | ArrayKey.name s =>
      match fd.arrays.find? (fun p => p.1 == s) with
      | some (nm, col) => GetResult.array nm col
      | none => GetResult.noneArray

/-- `FieldDataBase.__getitem__` delegates to `get_array`. -/
def FieldData.getitem (fd : FieldData) (key : ArrayKey) : GetResult :=
  fd.get_array key

/-- `FieldDataBase.keys` (fields.py lines 41-49). -/
def FieldData.keys (fd : FieldData) : List String :=
  fd.arrays.map (fun p => p.1)

/-! ### Active Role Registry (spec-modelled)

The role-accessor implementation the tests exercise
(`active_vectors_name = ...`, `set_vectors`, ...) is code of this
repository that is not under `src/` — only its tests are
(`tests/datamodel/test_datasetattributes.py`).  It is therefore modelled
from the spec below. -/

/-- The four special roles of the Active Role Registry (spec §3, §4.3). -/
inductive RoleKind where
  | scalars
  | vectors
  | normals
  | tcoords
deriving DecidableEq, Repr

/-- Modelled from the spec: the component-count constraint of each role —
"vectors/normals require exactly 3 components per element;
texture-coordinates require 2 or 3; scalars has no shape constraint"
(spec §3).  `none` means unconstrained. -/
def RoleKind.allowedComponents : RoleKind → Option (List Nat)
  | RoleKind.scalars => none
  | RoleKind.vectors => some [3]
  | RoleKind.normals => some [3]
  | RoleKind.tcoords => some [2, 3]

/-- Modelled from the spec: a point- or cell-scoped attribute table as the
Active Role Registry sees it — each named column with its per-element
component count, plus the (role-kind → column-name-or-none) registry
entries (spec §3 "Active Role Registry entry"). -/
structure RoleTable where
  columns : List (String × Nat)
  activeScalars : Option String
  activeVectors : Option String
  activeNormals : Option String
  activeTcoords : Option String
deriving DecidableEq, Repr

/-- The registered name for a role. -/
def RoleTable.active (t : RoleTable) : RoleKind → Option String
  | RoleKind.scalars => t.activeScalars
  | RoleKind.vectors => t.activeVectors
  | RoleKind.normals => t.activeNormals
  | RoleKind.tcoords => t.activeTcoords

/-- Register `name` for `role`. -/
def RoleTable.register (t : RoleTable) (role : RoleKind) (name : String) :
    RoleTable :=
  match role with
  | RoleKind.scalars => { t with activeScalars := some name }
  | RoleKind.vectors => { t with activeVectors := some name }
  | RoleKind.normals => { t with activeNormals := some name }
  | RoleKind.tcoords => { t with activeTcoords := some name }

/-- Errors of the active-role setter-by-name.  `keyErrorDoesNotContain`
carries the missing name (the raised `KeyError` message contains
"does not contain"); `valueErrorComponents` carries the component counts
the role requires (the raised `ValueError` names the requirement). -/
inductive RoleErr where
  | keyErrorDoesNotContain (name : String)
  | valueErrorComponents (required : List Nat)
deriving DecidableEq, Repr

/-- Does a column with `comps` components satisfy `role`'s constraint? -/
def RoleKind.shapeOK (role : RoleKind) (comps : Nat) : Bool :=
  match role.allowedComponents with
  | none => true
  | some allowed => allowed.contains comps

/-- Modelled from the spec: the active-role setter by name (spec §4.3) —
"setter by name validates the column exists (`KeyError` with message
'does not contain' if not) and satisfies the role's component-count
constraint (`ValueError` naming the required component count) before
registering". -/
def RoleTable.setActiveName (t : RoleTable) (role : RoleKind) (name : String) :
    Except RoleErr RoleTable :=
  match t.columns.find? (fun p => p.1 == name) with
  | none => Except.error (RoleErr.keyErrorDoesNotContain name)
  | some (_, comps) =>
      match role.allowedComponents with
      | none => Except.ok (t.register role name)
      | some allowed =>
          if allowed.contains comps then Except.ok (t.register role name)
          else Except.error (RoleErr.valueErrorComponents allowed)

/-- The registry invariant (spec §3): every registered role points to a
column that exists in the table and satisfies the role's component-count
constraint. -/
def RoleTable.registryOK (t : RoleTable) : Prop :=
  ∀ role : RoleKind, ∀ nm : String, t.active role = some nm →
    ∃ comps : Nat, t.columns.find? (fun p => p.1 == nm) = some (nm, comps) ∧
      role.shapeOK comps = true

/-! ### CompositeDataSetAttributes -/

/-- One non-empty leaf block of the composite dataset, as seen through
`GetAttributes(association)`: the dimensions `set_array` consults plus its
attribute table. -/
structure BlockAttrs where
  dims : DatasetDims
  fd : FieldData
deriving DecidableEq, Repr

/-- The column names of a block's table (`dsa.keys()` in
`__determine_arraynames`). -/
def BlockAttrs.keys (b : BlockAttrs) : List String :=
  b.fd.keys

/-- A synthesized `dsa.VTKCompositeDataArray` for one name: per block, the
block's column, or `none` for the NoneArray placeholder of a block missing
the column.  (The real object fetches blocks lazily; the observable
per-block contents are modelled eagerly.) -/
structure VTKCompositeDataArray where
  entries : List (Option StoredArray)
deriving DecidableEq, Repr

/-- `CompositeDataSetAttributes`: the traversed leaf blocks (`DataSet`),
the association, the cached union of names (`ArrayNames`) and the per-name
weak-reference cache (`Arrays`; an entry that is `none` models a weak
reference whose referent has been collected). -/
structure CompositeDataSetAttributes where
  blocks : List BlockAttrs
  association : FieldAssociation
  ArrayNames : List String
  Arrays : List (String × Option VTKCompositeDataArray)
deriving DecidableEq, Repr

/-- `CompositeDataSetAttributes.__determine_arraynames` (fields.py lines
171-180): traverse the leaf blocks in order, and append each block's column
names that were not yet seen.  (The source keeps a companion `set` purely
as a fast membership test for the list being built; membership in the list
itself is the same test.) -/
def determineArrayNames (blocks : List BlockAttrs) : List String :=
  blocks.foldl
    (fun acc b =>
      b.keys.foldl (fun acc2 nm => if nm ∈ acc2 then acc2 else acc2 ++ [nm]) acc)
    []

/-- Specification-side formulation of "union of names in first-seen order":
keep the head, drop its later duplicates, recurse.  (Deliberately a
different algorithm from `determineArrayNames`, which threads a seen-set
through a fold.) -/
def firstSeen : List String → List String
  | [] => []
  | x :: xs => x :: firstSeen (xs.filter (fun y => y ≠ x))
termination_by l => l.length
decreasing_by
  simp only [List.length_cons]
  exact Nat.lt_succ_of_le (List.length_filter_le _ _)

/-- `CompositeDataSetAttributes.__init__` (fields.py lines 160-169): store
the dataset and association, start with an empty cache, and compute
`ArrayNames` once from the blocks. -/
def CompositeDataSetAttributes.init (blocks : List BlockAttrs)
    (assoc : FieldAssociation) : CompositeDataSetAttributes :=
  ⟨blocks, assoc, determineArrayNames blocks, []⟩

/-- `CompositeDataSetAttributes.keys` (fields.py lines 182-184): return the
cached list. -/
def CompositeDataSetAttributes.keys (u : CompositeDataSetAttributes) :
    List String :=
  u.ArrayNames

/-- A value passed to `CompositeDataSetAttributes.set_array`: the NoneArray
sentinel, a plain (non-composite) scalar or array, or a
`VTKCompositeDataArray` holding one optional sub-array per block. -/
inductive CompValue where
  | noneArray
  | plain (v : PyValue)
  | composite (subs : List (Option NpArray))
deriving Repr

/-- Errors observable from `CompositeDataSetAttributes.set_array`. -/
inductive CompErr where
  | attributeErrorNoAppend
deriving DecidableEq, Repr

/-- Replace the cache entry for `name` (or add it). -/
def cacheUpdate (cache : List (String × Option VTKCompositeDataArray))
    (name : String) (arr : Option VTKCompositeDataArray) :
    List (String × Option VTKCompositeDataArray) :=
  if cache.any (fun p => p.1 == name) then
    cache.map (fun p => if p.1 == name then (name, arr) else p)
  else
    cache ++ [(name, arr)]

/-- `CompositeDataSetAttributes.set_array` (fields.py lines 194-216).

The NoneArray sentinel is a no-op.  A non-composite value takes the
"Scalar input" branch, which runs
`ds.GetAttributes(self.Association).append(narray, name)` on every block —
but the attribute classes this repository installs (`FieldDataBase` and
its subclasses, or the raw VTK classes when the override is inactive)
define `set_array` and no `append`, so with at least one block the first
iteration raises `AttributeError` and nothing is stored.  A composite
value is zipped against the blocks, each non-`None` sub-array is stored
into its block via the block's `set_array`, and if at least one sub-array
was stored the name is appended to `ArrayNames` and the value is cached by
weak reference. -/
def CompositeDataSetAttributes.set_array (u : CompositeDataSetAttributes)
    (name : String) (value : CompValue) :
    Except CompErr CompositeDataSetAttributes :=
  match value with
  | CompValue.noneArray => Except.ok u
  | CompValue.plain _ =>
      match u.blocks with
      | [] => Except.ok u   -- the loop body never runs; `added` stays False
      | _ :: _ => Except.error CompErr.attributeErrorNoAppend
  | CompValue.composite subs =>
      let pairs := u.blocks.zip subs
      let blocks1 :=
        pairs.map (fun p =>
          match p.2 with
          | some arr =>
              { p.1 with
                fd := FieldDataBase.set_array u.association p.1.dims p.1.fd
                  name (PyValue.array arr) }
          | none => p.1)
        ++ u.blocks.drop subs.length
      let added := pairs.any (fun p => p.2.isSome)
      if added then
        Except.ok { u with
          blocks := blocks1,
          ArrayNames := u.ArrayNames ++ [name],
          Arrays := cacheUpdate u.Arrays name
            (some ⟨subs.map (fun s =>
              s.map (fun arr =>
                FieldDataBase.processArray (arr.shape.headD 0) arr))⟩) }
      else
        Except.ok { u with blocks := blocks1 }

/-- Synthesize the composite array for `name`:
`dsa.VTKCompositeDataArray(dataset=self.DataSet, name=..., association=...)`
— per block, the block's column under `name`, or the NoneArray placeholder
when the block misses it. -/
def CompositeDataSetAttributes.synthesize (u : CompositeDataSetAttributes)
    (name : String) : VTKCompositeDataArray :=
  ⟨u.blocks.map (fun b =>
    match b.fd.arrays.find? (fun p => p.1 == name) with
    | some (_, col) => some col
    | none => none)⟩

/-- The observable result of `CompositeDataSetAttributes.get_array`. -/
inductive CompGetResult where
  | noneArray
  | array (arr : VTKCompositeDataArray)
deriving DecidableEq, Repr

/-- `CompositeDataSetAttributes.get_array` (fields.py lines 218-230): a
name outside `ArrayNames` returns the NoneArray sentinel; otherwise, if the
cache has no entry or its weak referent was collected, a fresh composite
array is synthesized and cached, else the cached array is returned.  The
updated attribute object is returned alongside. -/
def CompositeDataSetAttributes.get_array (u : CompositeDataSetAttributes)
    (name : String) : CompGetResult × CompositeDataSetAttributes :=
  if name ∈ u.ArrayNames then
    match u.Arrays.find? (fun p => p.1 == name) with
    | some (_, some arr) => (CompGetResult.array arr, u)
    | _ =>
        let arr := u.synthesize name
        (CompGetResult.array arr,
          { u with Arrays := cacheUpdate u.Arrays name (some arr) })
  else
    (CompGetResult.noneArray, u)

/-! ### Helper lemmas -/

theorem find?_map_replace (name : String) (col : StoredArray) :
    ∀ l : List (String × StoredArray), l.any (fun p => p.1 == name) = true →
      (l.map (fun p => if p.1 == name then (name, col) else p)).find?
          (fun p => p.1 == name) = some (name, col) := by
  intro l h
  induction l with
  | nil => simp at h
  | cons x xs ih =>
    cases hx : (x.1 == name) with
    | true => simp [List.find?, hx]
    | false =>
      have h2 : xs.any (fun p => p.1 == name) = true := by
        simpa [List.any_cons, hx] using h
      simp only [List.map_cons, hx, Bool.false_eq_true, if_false]
      simp only [List.find?, hx]
      exact ih h2

theorem find?_append_of_none {α : Type} (p : α → Bool) :
    ∀ l l2 : List α, l.find? p = none → (l ++ l2).find? p = l2.find? p := by
  intro l l2 h
  induction l with
  | nil => simp
  | cons x xs ih =>
    by_cases hx : p x
    · simp [List.find?, hx] at h
    · simp only [List.find?_cons_of_neg _ (by simpa using hx)] at h
      simpa [List.find?, hx] using ih h

theorem any_eq_false_find?_none {α : Type} (p : α → Bool) (l : List α)
    (h : l.any p = false) : l.find? p = none := by
  induction l with
  | nil => rfl
  | cons x xs ih =>
    simp only [List.any_cons, Bool.or_eq_false_iff] at h
    simp [List.find?, h.1, ih h.2]

/-- After `AddArray`, looking the name up returns exactly the added
column. -/
theorem get_array_addArray (fd : FieldData) (name : String) (col : StoredArray) :
    (fd.addArray name col).get_array (ArrayKey.name name) =
      GetResult.array name col := by
  unfold FieldData.addArray FieldData.get_array
  cases hany : fd.arrays.any (fun p => p.1 == name) with
  | true =>
    simp only [hany, if_true]
    rw [find?_map_replace name col fd.arrays hany]
  | false =>
    simp only [hany, Bool.false_eq_true, if_false]
    rw [find?_append_of_none _ _ _ (any_eq_false_find?_none _ _ hany)]
    simp [List.find?]

theorem flatten_unflatten :
    ∀ (sh : List Nat) (p : Nat), p < sh.prod →
      (List.zipWith (· * ·) (NpArray.unflatten sh p) (NpArray.cStrides sh)).sum = p := by
  intro sh
  induction sh with
  | nil =>
    intro p hp
    have hp0 : p = 0 := by simpa using Nat.lt_one_iff.mp (by simpa using hp)
    subst hp0
    simp [NpArray.unflatten, NpArray.cStrides]
  | cons n rest ih =>
    intro p hp
    have hB : 0 < rest.prod := by
      rcases Nat.eq_zero_or_pos rest.prod with h0 | h0
      · rw [List.prod_cons, h0, Nat.mul_zero] at hp; omega
      · exact h0
    have hmod : p % rest.prod < rest.prod := Nat.mod_lt _ hB
    simp only [NpArray.unflatten, NpArray.cStrides, List.zipWith_cons_cons,
      List.sum_cons, ih (p % rest.prod) hmod]
    rw [Nat.mul_comm]
    exact Nat.div_add_mod p rest.prod

/-- The C-order traversal of a fresh C-contiguous array is its buffer. -/
theorem tolist_fresh (sh st : List Nat) (b : List Int)
    (hst : st = NpArray.cStrides sh) (hb : b.length = sh.prod) :
    NpArray.tolist ⟨sh, st, 0, b⟩ = b := by
  subst hst
  unfold NpArray.tolist
  apply List.ext_getElem
  · simp [hb]
  · intro i h1 h2
    simp only [List.getElem_map, List.getElem_range]
    have hi : i < sh.prod := by simpa using h1
    unfold NpArray.elem
    simp only [Nat.zero_add]
    rw [flatten_unflatten sh i hi]
    exact List.getD_eq_getElem b 0 h2

theorem getD_tolist (a : NpArray) (p : Nat) (hp : p < a.shape.prod) (d : Int) :
    a.tolist.getD p d = a.elem (NpArray.unflatten a.shape p) := by
  unfold NpArray.tolist
  rw [List.getD_eq_getElem?_getD, List.getElem?_map, List.getElem?_range hp]
  rfl

theorem unflatten_two (n m i q : Nat) (hq : q < m) :
    NpArray.unflatten [n, m] (i * m + q) = [i, q] := by
  have hm : 0 < m := Nat.lt_of_le_of_lt (Nat.zero_le q) hq
  have hdiv : (i * m + q) / m = i := by
    rw [Nat.mul_comm, Nat.mul_add_div hm, Nat.div_eq_of_lt hq, Nat.add_zero]
  have hmod : (i * m + q) % m = q := by
    rw [Nat.mul_comm, Nat.mul_add_mod, Nat.mod_eq_of_lt hq]
  simp [NpArray.unflatten, hdiv, hmod]

theorem unflatten_three (n r c i q : Nat) (hq : q < r * c) :
    NpArray.unflatten [n, r, c] (i * (r * c) + q) = [i, q / c, q % c] := by
  have hrc : 0 < r * c := Nat.lt_of_le_of_lt (Nat.zero_le q) hq
  have hc : 0 < c := by
    rcases Nat.eq_zero_or_pos c with h0 | h0
    · rw [h0, Nat.mul_zero] at hrc; omega
    · exact h0
  have hdiv : (i * (r * c) + q) / (r * c) = i := by
    rw [Nat.mul_comm, Nat.mul_add_div hrc, Nat.div_eq_of_lt hq, Nat.add_zero]
  have hmod : (i * (r * c) + q) % (r * c) = q := by
    rw [Nat.mul_comm, Nat.mul_add_mod, Nat.mod_eq_of_lt hq]
  simp [NpArray.unflatten, hdiv, hmod]

theorem elem_transpose021 (sh st : List Nat) (off : Nat) (buf : List Int)
    (n r c s0 s1 s2 : Nat) (hsh : sh = [n, r, c]) (hst : st = [s0, s1, s2])
    (i x y : Nat) :
    (NpArray.transpose021 ⟨sh, st, off, buf⟩).elem [i, x, y] =
      NpArray.elem ⟨sh, st, off, buf⟩ [i, y, x] := by
  subst hsh hst
  unfold NpArray.transpose021 NpArray.elem
  simp only [List.zipWith_cons_cons, List.zipWith_nil_right, List.sum_cons,
    List.sum_nil]
  ring_nf

/-- Stage lemma: a C-contiguous rank-3 input whose per-element matrices do
not have 3 columns passes through `processArray` untransposed: the stored
column is `[n, r*c]` over the original buffer. -/
theorem processArray_noTranspose (n r c : Nat) (buf : List Int) (hc3 : c ≠ 3) :
    FieldDataBase.processArray n ⟨[n, r, c], [r * c, c, 1], 0, buf⟩ =
      ⟨[n, r * c], NpArray.tolist ⟨[n, r * c], [r * c, 1], 0, buf⟩⟩ := by
  have hbeq : (c == 3) = false := by simpa using hc3
  have hcontig : NpArray.contiguous ⟨[n, r, c], [r * c, c, 1], 0, buf⟩ = true := by
    simp [NpArray.contiguous, NpArray.cStrides]
  unfold FieldDataBase.processArray
  simp [FieldDataBase.strideTest, hbeq, hcontig, NpArray.reshapeFlat2]

/-- Stage lemma: a C-contiguous rank-3 input whose per-element matrices
have 3 columns is transposed on its last two axes, copied contiguously,
and flattened: the stored column is `[n, r*3]` over the traversal of the
transposed view. -/
theorem processArray_transpose (n r : Nat) (buf : List Int) :
    FieldDataBase.processArray n ⟨[n, r, 3], [r * 3, 3, 1], 0, buf⟩ =
      ⟨[n, r * 3],
        NpArray.tolist ⟨[n, r * 3], [r * 3, 1], 0,
          NpArray.tolist ⟨[n, 3, r], [r * 3, 1, 3], 0, buf⟩⟩⟩ := by
  have hT : NpArray.transpose021 ⟨[n, r, 3], [r * 3, 3, 1], 0, buf⟩ =
      ⟨[n, 3, r], [r * 3, 1, 3], 0, buf⟩ := rfl
  have hnc : NpArray.contiguous ⟨[n, 3, r], [r * 3, 1, 3], 0, buf⟩ = false := by
    simp [NpArray.contiguous, NpArray.cStrides]
  unfold FieldDataBase.processArray
  simp [FieldDataBase.strideTest, NpArray.contiguous, NpArray.cStrides, hT, hnc,
    NpArray.ascontiguousarray, NpArray.reshapeFlat2]

/-- Stage lemma: an input whose leading dimension differs from `arrLength`
is broadcast: the stored column is `[arrLength, prod shape]`, its data the
flattened input repeated `arrLength` times. -/
theorem processArray_mismatch (L : Nat) (sh st : List Nat) (off : Nat)
    (buf : List Int) (hne : sh ≠ []) (hmis : sh.headD 0 ≠ L) :
    FieldDataBase.processArray L ⟨sh, st, off, buf⟩ =
      ⟨[L, sh.prod],
        (List.range L).flatMap (fun _ => NpArray.tolist ⟨sh, st, off, buf⟩)⟩ := by
  have hlen : sh.length ≠ 0 := by simpa [List.length_eq_zero] using hne
  have hflat :
      ((List.range L).flatMap
        (fun _ => NpArray.tolist ⟨sh, st, off, buf⟩)).length =
        ([L, sh.prod] : List Nat).prod := by
    rw [List.length_flatMap]
    have hfun : (List.length ∘ fun _ : Nat => NpArray.tolist ⟨sh, st, off, buf⟩)
        = fun _ : Nat => sh.prod := by
      funext x
      simp [NpArray.tolist]
    rw [hfun, List.map_const']
    simp [List.sum_replicate, List.length_range]
  have hfresh := tolist_fresh [L, sh.prod] [sh.prod, 1]
    ((List.range L).flatMap (fun _ => NpArray.tolist ⟨sh, st, off, buf⟩))
    (by simp [NpArray.cStrides]) hflat
  have hcontig :
      NpArray.contiguous ⟨[L, sh.prod], [sh.prod, 1], 0,
        (List.range L).flatMap (fun _ => NpArray.tolist ⟨sh, st, off, buf⟩)⟩ = true := by
    simp [NpArray.contiguous, NpArray.cStrides]
  unfold FieldDataBase.processArray
  rw [if_neg hlen, if_pos hmis]
  simp [FieldDataBase.broadcastFixup, FieldDataBase.strideTest, hcontig, hfresh]

theorem elem_fresh2 (n m : Nat) (b : List Int) (i q : Nat) :
    NpArray.elem ⟨[n, m], [m, 1], 0, b⟩ [i, q] = b.getD (i * m + q) 0 := by
  unfold NpArray.elem
  simp

/-- Master lemma for the rank-3 path: for a C-contiguous `[n, r, c]` input
whose leading dimension matches `arrLength = n`, the stored column has
shape `[n, r*c]`, and its flat element at `i*(r*c) + q` is the input
element at `[i, q % r, q / r]` when `c = 3` (the stride test fires and the
matrices are stored transposed, i.e. column-major) and at
`[i, q / c, q % c]` (row-major, identity) otherwise. -/
theorem processArray_rank3_getD (n r c : Nat) (buf : List Int)
    (i q : Nat) (hi : i < n) (hq : q < r * c) (d : Int) :
    (FieldDataBase.processArray n ⟨[n, r, c], [r * c, c, 1], 0, buf⟩).shape =
      [n, r * c] ∧
    (FieldDataBase.processArray n ⟨[n, r, c], [r * c, c, 1], 0, buf⟩).data.getD
        (i * (r * c) + q) d =
      (if c = 3 then
        NpArray.elem ⟨[n, r, c], [r * c, c, 1], 0, buf⟩ [i, q % r, q / r]
       else
        NpArray.elem ⟨[n, r, c], [r * c, c, 1], 0, buf⟩ [i, q / c, q % c]) := by
  have hp : i * (r * c) + q < n * (r * c) := by
    calc i * (r * c) + q < i * (r * c) + r * c := by omega
    _ = (i + 1) * (r * c) := by ring
    _ ≤ n * (r * c) := Nat.mul_le_mul_right _ hi
  by_cases hc3 : c = 3
  · subst hc3
    rw [processArray_transpose n r buf, if_pos rfl]
    refine ⟨rfl, ?_⟩
    have hprod4 : ([n, r * 3] : List Nat).prod = n * (r * 3) := by simp
    rw [getD_tolist _ _ (by rw [hprod4]; exact hp) d,
      unflatten_two n (r * 3) i q hq, elem_fresh2]
    have hprod2 : ([n, 3, r] : List Nat).prod = n * (r * 3) := by
      show n * (3 * (r * 1)) = n * (r * 3)
      ring
    rw [getD_tolist _ _ (by rw [hprod2]; exact hp) 0]
    have hidx : i * (r * 3) + q = i * (3 * r) + q := by ring
    have hq3 : q < 3 * r := by omega
    rw [hidx, unflatten_three n 3 r i q hq3]
    rw [show (⟨[n, 3, r], [r * 3, 1, 3], 0, buf⟩ : NpArray) =
      NpArray.transpose021 ⟨[n, r, 3], [r * 3, 3, 1], 0, buf⟩ from rfl]
    exact elem_transpose021 [n, r, 3] [r * 3, 3, 1] 0 buf n r 3 (r * 3) 3 1
      rfl rfl i (q / r) (q % r)
  · rw [processArray_noTranspose n r c buf hc3, if_neg hc3]
    refine ⟨rfl, ?_⟩
    have hprod4 : ([n, r * c] : List Nat).prod = n * (r * c) := by simp
    rw [getD_tolist _ _ (by rw [hprod4]; exact hp) d,
      unflatten_two n (r * c) i q hq, elem_fresh2]
    unfold NpArray.elem
    simp only [List.zipWith_cons_cons, List.zipWith_nil_right, List.sum_cons,
      List.sum_nil, Nat.zero_add, Nat.add_zero, Nat.mul_one]
    have hqdm : q / c * c + q % c = q := by
      rw [Nat.mul_comm]
      exact Nat.div_add_mod q c
    rw [hqdm]

theorem mem_firstSeen (y : String) (l : List String) :
    y ∈ firstSeen l ↔ y ∈ l := by
  induction l using firstSeen.induct with
  | case1 => simp [firstSeen]
  | case2 x xs ih =>
    rw [firstSeen]
    by_cases hyx : y = x
    · simp [hyx]
    · rw [List.mem_cons, List.mem_cons, ih]
      simp [hyx, List.mem_filter]

theorem nodup_firstSeen (l : List String) : (firstSeen l).Nodup := by
  induction l using firstSeen.induct with
  | case1 => simp [firstSeen]
  | case2 x xs ih =>
    rw [firstSeen]
    refine List.nodup_cons.mpr ⟨?_, ih⟩
    rw [mem_firstSeen]
    simp [List.mem_filter]

theorem dedup_foldl (l : List String) :
    ∀ acc : List String,
      l.foldl (fun acc2 nm => if nm ∈ acc2 then acc2 else acc2 ++ [nm]) acc =
        acc ++ firstSeen (l.filter (fun y => y ∉ acc)) := by
  induction l with
  | nil => intro acc; simp [firstSeen]
  | cons x xs ih =>
    intro acc
    by_cases hx : x ∈ acc
    · have h1 : (x :: xs).filter (fun y => y ∉ acc) =
          xs.filter (fun y => y ∉ acc) := by
        simp [List.filter_cons, hx]
      rw [h1, List.foldl_cons, if_pos hx]
      exact ih acc
    · have h1 : (x :: xs).filter (fun y => y ∉ acc) =
          x :: xs.filter (fun y => y ∉ acc) := by
        simp [List.filter_cons, hx]
      have h2 : xs.filter (fun y => y ∉ acc ++ [x]) =
          (xs.filter (fun y => y ∉ acc)).filter (fun y => y ≠ x) := by
        rw [List.filter_filter]
        apply List.filter_congr
        intro y _
        by_cases hya : y ∈ acc <;> by_cases hyx : y = x <;>
          simp [hya, hyx, List.mem_append]
      rw [h1, List.foldl_cons, if_neg hx, firstSeen]
      rw [ih (acc ++ [x]), h2]
      simp

/-- The fold of `__determine_arraynames` computes `firstSeen` of the
in-order concatenation of the blocks' key lists. -/
theorem determineArrayNames_eq_firstSeen (blocks : List BlockAttrs) :
    determineArrayNames blocks =
      firstSeen (blocks.flatMap BlockAttrs.keys) := by
  have hfold : ∀ (bs : List BlockAttrs) (acc : List String),
      bs.foldl
        (fun acc b =>
          b.keys.foldl (fun acc2 nm => if nm ∈ acc2 then acc2 else acc2 ++ [nm]) acc)
        acc =
      (bs.flatMap BlockAttrs.keys).foldl
        (fun acc2 nm => if nm ∈ acc2 then acc2 else acc2 ++ [nm]) acc := by
    intro bs
    induction bs with
    | nil => intro acc; simp
    | cons b rest ih =>
      intro acc
      rw [List.flatMap_cons, List.foldl_append, List.foldl_cons]
      exact ih _
  unfold determineArrayNames
  rw [hfold, dedup_foldl]
  simp

/-! ### Claim theorems -/

/-- C1: every in-place element write through `vtk_ndarray.__setitem__`
stores the element and then triggers, in order, (a) `Modified()` on the
aliased physical buffer and (b) `Modified()` on the owning dataset if the
weak reference's referent is still alive; a destroyed (or absent) owner is
silently skipped and the write still succeeds. -/
theorem C1_inplace_write_marks_buffer_then_entity (w : ViewWorld) (key : Nat)
    (value : Int) (b : VtkBuffer) (hb : w.prov.VTKObject = some b) :
    (vtk_ndarray.setitem w key value).1.data = w.data.set key value ∧
    (vtk_ndarray.setitem w key value).2 =
      [Evt.store key value, Evt.bufferModified] ++
        (match w.prov.dataset with
         | some (some _) => [Evt.datasetModified]
         | _ => []) ∧
    (vtk_ndarray.setitem w key value).1.prov.VTKObject =
      some ⟨b.modifiedCount + 1⟩ ∧
    (∀ d : OwningDataset, w.prov.dataset = some (some d) →
      (vtk_ndarray.setitem w key value).1.prov.dataset =
        some (some ⟨d.modifiedCount + 1⟩)) ∧
    (w.prov.dataset = some none →
      (vtk_ndarray.setitem w key value).1.prov.dataset = some none) ∧
    (w.prov.dataset = none →
      (vtk_ndarray.setitem w key value).1.prov.dataset = none) := by
  obtain ⟨data, ds, assoc, vtk⟩ := w
  rcases ds with _ | (_ | d) <;>
    simp_all [vtk_ndarray.setitem]

/-- Witness for C1: a concrete write through a view whose owning dataset
has been destroyed — the buffer is still notified and the write lands. -/
theorem C1_inplace_write_marks_buffer_then_entity_witness :
    (vtk_ndarray.setitem
      ⟨[0, 0, 0], ⟨some none, FieldAssociation.POINT, some ⟨0⟩⟩⟩ 1 5).1.data =
      [0, 5, 0] ∧
    (vtk_ndarray.setitem
      ⟨[0, 0, 0], ⟨some none, FieldAssociation.POINT, some ⟨0⟩⟩⟩ 1 5).2 =
      [Evt.store 1 5, Evt.bufferModified] := by
  have h := C1_inplace_write_marks_buffer_then_entity
    ⟨[0, 0, 0], ⟨some none, FieldAssociation.POINT, some ⟨0⟩⟩⟩ 1 5 ⟨0⟩ rfl
  exact ⟨by simpa using h.1, by simpa using h.2.1⟩

/-- C5: `__array_finalize__` keeps the parent's provenance exactly when the
new array shares memory with the parent (so write propagation is kept),
and resets it to the detached values otherwise, in which case a write
through the result stores the element but propagates nothing. -/
theorem C5_view_provenance_dichotomy (p : Provenance) (data : List Int)
    (k : Nat) (v : Int) :
    vtk_ndarray.arrayFinalize true p = p ∧
    vtk_ndarray.arrayFinalize false p = detachedProvenance ∧
    (vtk_ndarray.setitem ⟨data, vtk_ndarray.arrayFinalize false p⟩ k v).2 =
      [Evt.store k v] ∧
    (vtk_ndarray.setitem ⟨data, vtk_ndarray.arrayFinalize false p⟩ k v).1.data =
      data.set k v ∧
    (∀ d : OwningDataset, ∀ buf : VtkBuffer,
      p.dataset = some (some d) → p.VTKObject = some buf →
      (vtk_ndarray.setitem ⟨data, vtk_ndarray.arrayFinalize true p⟩ k v).2 =
        [Evt.store k v, Evt.bufferModified, Evt.datasetModified]) := by
  refine ⟨rfl, rfl, ?_, ?_, ?_⟩
  · simp [vtk_ndarray.setitem, vtk_ndarray.arrayFinalize, detachedProvenance]
  · simp [vtk_ndarray.setitem, vtk_ndarray.arrayFinalize, detachedProvenance]
  · intro d buf hd hbuf
    obtain ⟨ds, assoc, vtk⟩ := p
    simp only [vtk_ndarray.arrayFinalize, if_true]
    simp_all [vtk_ndarray.setitem]

/-- Witness for C5: a shared-memory view of a live owner propagates both
notifications; the detached counterpart emits only the store. -/
theorem C5_view_provenance_dichotomy_witness :
    (vtk_ndarray.setitem
      ⟨[9], vtk_ndarray.arrayFinalize true
        ⟨some (some ⟨0⟩), FieldAssociation.POINT, some ⟨0⟩⟩⟩ 0 1).2 =
      [Evt.store 0 1, Evt.bufferModified, Evt.datasetModified] :=
  (C5_view_provenance_dichotomy
    ⟨some (some ⟨0⟩), FieldAssociation.POINT, some ⟨0⟩⟩ [9] 0 1).2.2.2.2
    ⟨0⟩ ⟨0⟩ rfl rfl

/-- C10: `FieldDataBase.get_array` (and `__getitem__`) on a missing string
name returns the NoneArray sentinel, never an error; an `IndexError` is
raised exactly for an integer index `≥ GetNumberOfArrays()`. -/
theorem C10_missing_name_returns_sentinel (fd : FieldData) (s : String)
    (i : Int) :
    fd.get_array (ArrayKey.name s) ≠ GetResult.indexError ∧
    (s ∉ fd.keys → fd.get_array (ArrayKey.name s) = GetResult.noneArray) ∧
    fd.getitem (ArrayKey.name s) = fd.get_array (ArrayKey.name s) ∧
    ((fd.arrays.length : Int) ≤ i →
      fd.get_array (ArrayKey.idx i) = GetResult.indexError) ∧
    (fd.get_array (ArrayKey.idx i) = GetResult.indexError →
      (fd.arrays.length : Int) ≤ i) := by
  refine ⟨?_, ?_, rfl, ?_, ?_⟩
  · simp only [FieldData.get_array]
    cases hf : fd.arrays.find? (fun p => p.1 == s) with
    | none => simp [hf]
    | some x => obtain ⟨nm, col⟩ := x; simp [hf]
  · intro hs
    have hf : fd.arrays.find? (fun p => p.1 == s) = none := by
      rw [List.find?_eq_none]
      intro x hx
      simp only [beq_iff_eq]
      intro hxs
      exact hs (hxs ▸ List.mem_map_of_mem (fun p => p.1) hx)
    simp [FieldData.get_array, hf]
  · intro hle
    simp only [FieldData.get_array]
    rw [if_pos hle]
  · intro h
    by_contra hlt
    push_neg at hlt
    simp only [FieldData.get_array] at h
    rw [if_neg (not_le.mpr hlt)] at h
    by_cases h0 : (0 : Int) ≤ i
    · rw [if_pos h0] at h
      have htn : i.toNat < fd.arrays.length := by omega
      cases hget : fd.arrays.get? i.toNat with
      | none =>
        rw [List.get?_eq_none] at hget
        omega
      | some x =>
        rw [hget] at h
        obtain ⟨nm, col⟩ := x
        simp at h
    · rw [if_neg h0] at h
      simp at h

/-- Witness for C10 at a one-column table: a missing name gives the
sentinel, index 3 raises `IndexError`. -/
theorem C10_missing_name_returns_sentinel_witness :
    FieldData.get_array ⟨[("a", ⟨[2], [1, 2]⟩)]⟩ (ArrayKey.name "b") =
      GetResult.noneArray ∧
    FieldData.get_array ⟨[("a", ⟨[2], [1, 2]⟩)]⟩ (ArrayKey.idx 3) =
      GetResult.indexError := by
  refine ⟨?_, ?_⟩
  · exact (C10_missing_name_returns_sentinel ⟨[("a", ⟨[2], [1, 2]⟩)]⟩ "b" 3).2.1
      (by decide)
  · exact (C10_missing_name_returns_sentinel ⟨[("a", ⟨[2], [1, 2]⟩)]⟩ "b" 3).2.2.2.1
      (by decide)

/-- C4: a single scalar written through `set_array` on a point-scoped table
is broadcast to a column of exactly `GetNumberOfPoints()` copies of the
scalar, and reading the name back returns that column; in particular, over
100 points the value 7 reads back as 100 sevens. -/
theorem C4_scalar_broadcast (dims : DatasetDims) (fd : FieldData)
    (name : String) (v : Int) :
    (FieldDataBase.set_array FieldAssociation.POINT dims fd name
        (PyValue.scalar v)).get_array (ArrayKey.name name) =
      GetResult.array name ⟨[dims.nPoints], List.replicate dims.nPoints v⟩ ∧
    (List.replicate dims.nPoints v).length = dims.nPoints ∧
    (∀ x ∈ List.replicate dims.nPoints v, x = v) ∧
    (FieldDataBase.set_array FieldAssociation.POINT ⟨100, 0, 0, 0⟩ ⟨[]⟩ "x"
        (PyValue.scalar 7)).get_array (ArrayKey.name "x") =
      GetResult.array "x" ⟨[100], List.replicate 100 7⟩ := by
  refine ⟨?_, List.length_replicate _ _, fun x hx => List.eq_of_mem_replicate hx, ?_⟩
  · exact get_array_addArray fd name ⟨[dims.nPoints], List.replicate dims.nPoints v⟩
  · exact get_array_addArray ⟨[]⟩ "x" ⟨[100], List.replicate 100 7⟩

/-- Witness for C4 at the spec's concrete instance. -/
theorem C4_scalar_broadcast_witness :
    (FieldDataBase.set_array FieldAssociation.POINT ⟨100, 0, 0, 0⟩ ⟨[]⟩ "x"
        (PyValue.scalar 7)).get_array (ArrayKey.name "x") =
      GetResult.array "x" ⟨[100], List.replicate 100 7⟩ ∧ (7 : Int) = 7 := by
  have h := C4_scalar_broadcast ⟨100, 0, 0, 0⟩ ⟨[]⟩ "x" 7
  exact ⟨h.1, h.2.2.1 7 (by simp)⟩

/-- C2 counterexample: the claim's "faithful round trip" is false at a
C-contiguous 1×3×3 input.  The matrix `[[1,2,3],[4,5,6],[7,8,9]]` is stored
as the row `[1,4,7,2,5,8,3,6,9]` (column-major), so reading the column back
and reshaping it to 3×3 in row-major order yields the transposed matrix:
position (0,0,1) of the read-back is 4, while the input element there
is 2. -/
theorem C2_rank3_roundtrip_counterexample :
    (FieldDataBase.set_array FieldAssociation.POINT ⟨1, 0, 0, 0⟩ ⟨[]⟩ "m"
        (PyValue.array ⟨[1, 3, 3], [9, 3, 1], 0,
          [1, 2, 3, 4, 5, 6, 7, 8, 9]⟩)).get_array (ArrayKey.name "m") =
      GetResult.array "m" ⟨[1, 9], [1, 4, 7, 2, 5, 8, 3, 6, 9]⟩ ∧
    ¬ (([1, 4, 7, 2, 5, 8, 3, 6, 9] : List Int).getD (0 * (3 * 3) + (0 * 3 + 1)) 0 =
        NpArray.elem ⟨[1, 3, 3], [9, 3, 1], 0, [1, 2, 3, 4, 5, 6, 7, 8, 9]⟩
          [0, 0, 1]) := by
  constructor
  · decide
  · decide

/-- C2 (amended): for a C-contiguous rank-3 input `[n, r, c]` whose leading
dimension matches the point count, `set_array` transposes the last two axes
exactly when the stride pattern has `strides[1] = 3` (i.e. `c = 3`), in
which case each element's matrix is flattened in column-major order and the
read-back reshaped entry `(i, j, k)` is the input entry
`(i, (j*c+k) % r, (j*c+k) / r)` — the transposed matrix when `r = c = 3`;
when the stride test does not fire (`c ≠ 3`) the flattening is row-major
and the round trip is faithful. -/
theorem C2_rank3_matrix_flattening (dims : DatasetDims) (fd : FieldData)
    (name : String) (buf : List Int) (r c i j k : Nat)
    (hi : i < dims.nPoints) (hj : j < r) (hk : k < c) (d : Int) :
    (FieldDataBase.set_array FieldAssociation.POINT dims fd name
        (PyValue.array ⟨[dims.nPoints, r, c], [r * c, c, 1], 0, buf⟩)).get_array
        (ArrayKey.name name) =
      GetResult.array name
        (FieldDataBase.processArray dims.nPoints
          ⟨[dims.nPoints, r, c], [r * c, c, 1], 0, buf⟩) ∧
    (FieldDataBase.processArray dims.nPoints
        ⟨[dims.nPoints, r, c], [r * c, c, 1], 0, buf⟩).shape =
      [dims.nPoints, r * c] ∧
    (FieldDataBase.processArray dims.nPoints
        ⟨[dims.nPoints, r, c], [r * c, c, 1], 0, buf⟩).data.getD
        (i * (r * c) + (j * c + k)) d =
      (if c = 3 then
        NpArray.elem ⟨[dims.nPoints, r, c], [r * c, c, 1], 0, buf⟩
          [i, (j * c + k) % r, (j * c + k) / r]
       else
        NpArray.elem ⟨[dims.nPoints, r, c], [r * c, c, 1], 0, buf⟩ [i, j, k]) := by
  have hc : 0 < c := Nat.lt_of_le_of_lt (Nat.zero_le k) hk
  have hq : j * c + k < r * c := by
    calc j * c + k < j * c + c := by omega
    _ = (j + 1) * c := by ring
    _ ≤ r * c := Nat.mul_le_mul_right c hj
  have hmain := processArray_rank3_getD dims.nPoints r c buf i (j * c + k) hi hq d
  refine ⟨get_array_addArray fd name _, hmain.1, ?_⟩
  rw [hmain.2]
  have hjdiv : (j * c + k) / c = j := by
    rw [Nat.mul_comm, Nat.mul_add_div hc, Nat.div_eq_of_lt hk, Nat.add_zero]
  have hjmod : (j * c + k) % c = k := by
    rw [Nat.mul_comm, Nat.mul_add_mod, Nat.mod_eq_of_lt hk]
  by_cases hc3 : c = 3
  · rw [if_pos hc3, if_pos hc3]
  · rw [if_neg hc3, if_neg hc3, hjdiv, hjmod]

/-- Witness for C2 at a concrete 1×3×2 input (stride test does not fire):
the stored row preserves row-major order and the round trip is the
identity. -/
theorem C2_rank3_matrix_flattening_witness :
    (FieldDataBase.processArray 1 ⟨[1, 3, 2], [6, 2, 1], 0,
        [1, 2, 3, 4, 5, 6]⟩).data.getD (0 * (3 * 2) + (1 * 2 + 1)) 0 =
      NpArray.elem ⟨[1, 3, 2], [6, 2, 1], 0, [1, 2, 3, 4, 5, 6]⟩ [0, 1, 1] := by
  have h := C2_rank3_matrix_flattening ⟨1, 0, 0, 0⟩ ⟨[]⟩ "m" [1, 2, 3, 4, 5, 6]
    3 2 0 1 1 (by decide) (by decide) (by decide) 0
  simpa using h.2.2

/-- C3 counterexample: a 3-row input on a 2-point table does not raise a
shape error and does not store nothing — it is broadcast into a 2×3 column
whose every row is the whole flattened input. -/
theorem C3_no_shape_error_counterexample :
    FieldDataBase.set_array FieldAssociation.POINT ⟨2, 0, 0, 0⟩ ⟨[]⟩ "x"
        (PyValue.array ⟨[3], [1], 0, [1, 2, 3]⟩) =
      ⟨[("x", ⟨[2, 3], [1, 2, 3, 1, 2, 3]⟩)]⟩ := by
  decide

/-- C3 (amended): whenever the input's leading dimension differs from the
point count `L`, `set_array` broadcasts the **whole flattened input** into
each of the `L` rows of an `L × components` column, where `components` is
the product of all of the input's dimensions (including the leading one);
the broadcast always succeeds — no length mismatch raises a shape error. -/
theorem C3_length_mismatch_broadcast (dims : DatasetDims) (fd : FieldData)
    (name : String) (a : NpArray) (hne : a.shape ≠ [])
    (hmis : a.shape.headD 0 ≠ dims.nPoints) :
    (FieldDataBase.set_array FieldAssociation.POINT dims fd name
        (PyValue.array a)).get_array (ArrayKey.name name) =
      GetResult.array name
        ⟨[dims.nPoints, a.shape.prod],
          (List.range dims.nPoints).flatMap (fun _ => a.tolist)⟩ := by
  obtain ⟨sh, st, off, buf⟩ := a
  have hpa := processArray_mismatch dims.nPoints sh st off buf hne hmis
  show (fd.addArray name
      (FieldDataBase.processArray dims.nPoints ⟨sh, st, off, buf⟩)).get_array
      (ArrayKey.name name) =
    GetResult.array name
      ⟨[dims.nPoints, sh.prod],
        (List.range dims.nPoints).flatMap
          (fun _ => NpArray.tolist ⟨sh, st, off, buf⟩)⟩
  rw [hpa]
  exact get_array_addArray fd name _

/-- Witness for C3: the 3-row input `[1,2,3]` on a 2-point table reads back
as the 2×3 column `[[1,2,3],[1,2,3]]`. -/
theorem C3_length_mismatch_broadcast_witness :
    (FieldDataBase.set_array FieldAssociation.POINT ⟨2, 0, 0, 0⟩ ⟨[]⟩ "x"
        (PyValue.array ⟨[3], [1], 0, [1, 2, 3]⟩)).get_array (ArrayKey.name "x") =
      GetResult.array "x" ⟨[2, 3], [1, 2, 3, 1, 2, 3]⟩ := by
  have h := C3_length_mismatch_broadcast ⟨2, 0, 0, 0⟩ ⟨[]⟩ "x"
    ⟨[3], [1], 0, [1, 2, 3]⟩ (by decide) (by decide)
  exact h.trans (by decide)

theorem RoleTable.columns_register (t : RoleTable) (role : RoleKind)
    (name : String) : (t.register role name).columns = t.columns := by
  cases role <;> rfl

theorem RoleTable.active_register_self (t : RoleTable) (role : RoleKind)
    (name : String) : (t.register role name).active role = some name := by
  cases role <;> rfl

theorem RoleTable.active_register_ne (t : RoleTable) (role : RoleKind)
    (name : String) (role2 : RoleKind) (h : role2 ≠ role) :
    (t.register role name).active role2 = t.active role2 := by
  cases role <;> cases role2 <;>
    first
    | exact absurd rfl h
    | rfl

/-- C6 (spec-modelled): the active-role setter by name raises `KeyError`
("does not contain") for a name absent from the table, raises `ValueError`
naming the required component counts for a present column violating the
role's constraint, and registers the role only on success — so a valid
registry stays valid: it never points at an absent or shape-invalid
column. -/
theorem C6_active_role_setter_validation (t : RoleTable) (role : RoleKind)
    (name : String) (hinv : t.registryOK) :
    (t.columns.find? (fun p => p.1 == name) = none →
      t.setActiveName role name =
        Except.error (RoleErr.keyErrorDoesNotContain name)) ∧
    (∀ nm : String, ∀ comps : Nat,
      t.columns.find? (fun p => p.1 == name) = some (nm, comps) →
      role.shapeOK comps = false →
      ∃ allowed : List Nat, role.allowedComponents = some allowed ∧
        t.setActiveName role name =
          Except.error (RoleErr.valueErrorComponents allowed)) ∧
    (∀ t2 : RoleTable, t.setActiveName role name = Except.ok t2 →
      t2.active role = some name ∧
      t2.columns = t.columns ∧
      (∃ comps : Nat,
        t.columns.find? (fun p => p.1 == name) = some (name, comps) ∧
        role.shapeOK comps = true) ∧
      t2.registryOK) := by
  cases hf : t.columns.find? (fun p => p.1 == name) with
  | none =>
    refine ⟨fun _ => ?_, ?_, ?_⟩
    · unfold RoleTable.setActiveName
      rw [hf]
    · intro nm comps hsome hbad
      exact absurd hsome (by simp)
    · intro t2 hok
      unfold RoleTable.setActiveName at hok
      rw [hf] at hok
      exact absurd hok (by simp)
  | some pr =>
    obtain ⟨nm, comps⟩ := pr
    have hnm : name = nm := by
      have hp := List.find?_some hf
      have h2 : nm = name := by simpa [beq_iff_eq] using hp
      exact h2.symm
    subst hnm
    have hok_of :
        ∀ t2 : RoleTable, t2 = t.register role name →
          role.shapeOK comps = true →
          t2.active role = some name ∧
          t2.columns = t.columns ∧
          (∃ c2 : Nat,
            (some (name, comps) : Option (String × Nat)) = some (name, c2) ∧
            role.shapeOK c2 = true) ∧
          t2.registryOK := by
      intro t2 ht2 hshape
      subst ht2
      refine ⟨RoleTable.active_register_self t role name,
        RoleTable.columns_register t role name, ⟨comps, rfl, hshape⟩, ?_⟩
      intro role2 nm2 hact
      by_cases hr : role2 = role
      · subst hr
        rw [RoleTable.active_register_self t role2 name] at hact
        obtain rfl : name = nm2 := by simpa using hact
        exact ⟨comps, by rw [RoleTable.columns_register]; exact hf, hshape⟩
      · rw [RoleTable.active_register_ne t role name role2 hr] at hact
        obtain ⟨c2, hc2f, hc2s⟩ := hinv role2 nm2 hact
        exact ⟨c2, by rw [RoleTable.columns_register]; exact hc2f, hc2s⟩
    refine ⟨fun hnone => ?_, ?_, ?_⟩
    · exact absurd hnone (by simp)
    · intro nm2 comps2 hsome hbad
      injection hsome with h2
      injection h2 with h3 h4
      rw [← h4] at hbad
      unfold RoleKind.shapeOK at hbad
      cases halt : role.allowedComponents with
      | none => rw [halt] at hbad; simp at hbad
      | some allowed =>
        rw [halt] at hbad
        simp only at hbad
        refine ⟨allowed, rfl, ?_⟩
        unfold RoleTable.setActiveName
        rw [hf, halt]
        simp only []
        rw [if_neg (by rw [hbad]; exact Bool.false_ne_true)]
    · intro t2 hok
      unfold RoleTable.setActiveName at hok
      rw [hf] at hok
      simp only at hok
      cases halt : role.allowedComponents with
      | none =>
        rw [halt] at hok
        simp only at hok
        have ht2 : t.register role name = t2 := by
          simpa using hok
        refine hok_of t2 ht2.symm ?_
        unfold RoleKind.shapeOK
        rw [halt]
      | some allowed =>
        rw [halt] at hok
        simp only at hok
        cases hcont : allowed.contains comps with
        | false =>
          rw [hcont] at hok
          simp at hok
        | true =>
          rw [hcont] at hok
          simp only [if_pos] at hok
          have ht2 : t.register role name = t2 := by
            simpa using hok
          refine hok_of t2 ht2.symm ?_
          unfold RoleKind.shapeOK
          rw [halt]
          exact hcont

/-- Witness for C6: on a table with a 1-component column "s" and a
3-component column "v", registering "v" as active vectors succeeds and
registers exactly "v". -/
theorem C6_active_role_setter_validation_witness :
    RoleTable.setActiveName ⟨[("s", 1), ("v", 3)], none, none, none, none⟩
        RoleKind.vectors "v" =
      Except.ok ⟨[("s", 1), ("v", 3)], none, some "v", none, none⟩ ∧
    (⟨[("s", 1), ("v", 3)], none, some "v", none, none⟩ : RoleTable).active
      RoleKind.vectors = some "v" := by
  have hinv : RoleTable.registryOK
      ⟨[("s", 1), ("v", 3)], none, none, none, none⟩ := by
    intro role nm h
    cases role <;> simp [RoleTable.active] at h
  have hok : RoleTable.setActiveName
      ⟨[("s", 1), ("v", 3)], none, none, none, none⟩ RoleKind.vectors "v" =
      Except.ok ⟨[("s", 1), ("v", 3)], none, some "v", none, none⟩ := rfl
  have h := C6_active_role_setter_validation
    ⟨[("s", 1), ("v", 3)], none, none, none, none⟩ RoleKind.vectors "v" hinv
  exact ⟨hok, by
    have := (h.2.2 ⟨[("s", 1), ("v", 3)], none, some "v", none, none⟩ hok).1
    exact this⟩

/-- C7: `keys()` of a composite attribute union is the union of per-block
column names in first-seen order over the in-order block traversal, each
name exactly once; it is computed once at construction — replacing the
blocks afterwards does not change `keys()` — and a name present in blocks
1 and 3 of three blocks appears exactly once. -/
theorem C7_composite_keys_first_seen_union (blocks : List BlockAttrs)
    (assoc : FieldAssociation) (bs2 : List BlockAttrs) :
    (CompositeDataSetAttributes.init blocks assoc).keys =
      firstSeen (blocks.flatMap BlockAttrs.keys) ∧
    (CompositeDataSetAttributes.init blocks assoc).keys.Nodup ∧
    (∀ nm : String,
      nm ∈ (CompositeDataSetAttributes.init blocks assoc).keys ↔
        ∃ b ∈ blocks, nm ∈ b.keys) ∧
    (∀ nm ∈ (CompositeDataSetAttributes.init blocks assoc).keys,
      (CompositeDataSetAttributes.init blocks assoc).keys.count nm = 1) ∧
    ({ CompositeDataSetAttributes.init blocks assoc with blocks := bs2 }.keys =
      (CompositeDataSetAttributes.init blocks assoc).keys) ∧
    (CompositeDataSetAttributes.init
        [⟨⟨0, 0, 0, 0⟩, ⟨[("A", ⟨[1], [1]⟩), ("B", ⟨[1], [2]⟩)]⟩⟩,
         ⟨⟨0, 0, 0, 0⟩, ⟨[("C", ⟨[1], [3]⟩)]⟩⟩,
         ⟨⟨0, 0, 0, 0⟩, ⟨[("A", ⟨[1], [4]⟩)]⟩⟩]
        FieldAssociation.POINT).keys.count "A" = 1 := by
  have hk : (CompositeDataSetAttributes.init blocks assoc).keys =
      firstSeen (blocks.flatMap BlockAttrs.keys) :=
    determineArrayNames_eq_firstSeen blocks
  have hnd : (CompositeDataSetAttributes.init blocks assoc).keys.Nodup := by
    rw [hk]
    exact nodup_firstSeen _
  refine ⟨hk, hnd, ?_, ?_, rfl, by decide⟩
  · intro nm
    rw [hk, mem_firstSeen]
    simp [List.mem_flatMap]
  · intro nm hm
    have hle := (List.nodup_iff_count_le_one.mp hnd) nm
    have hpos := List.count_pos_iff.mpr hm
    omega

/-- Witness for C7 at a one-block union. -/
theorem C7_composite_keys_first_seen_union_witness :
    (CompositeDataSetAttributes.init [⟨⟨0, 0, 0, 0⟩, ⟨[("A", ⟨[1], [1]⟩)]⟩⟩]
        FieldAssociation.POINT).keys.count "A" = 1 := by
  have h := C7_composite_keys_first_seen_union
    [⟨⟨0, 0, 0, 0⟩, ⟨[("A", ⟨[1], [1]⟩)]⟩⟩] FieldAssociation.POINT []
  exact h.2.2.2.1 "A" (by decide)

/-- C8 (code evaluated at the failing input): storing a plain
(non-composite) value through the composite union's `set_array` raises
`AttributeError` on the first block — the "Scalar input" branch calls
`.append(narray, name)` on the block's attribute table, and the attribute
classes this repository installs define `set_array` but no `append` — so
nothing is stored and the name is not appended; the composite branch, by
contrast, stores sub-arrays into their blocks and appends the name. -/
theorem C8_plain_set_raises_attribute_error :
    CompositeDataSetAttributes.set_array
        ⟨[⟨⟨4, 0, 0, 0⟩, ⟨[]⟩⟩], FieldAssociation.POINT, [], []⟩ "A"
        (CompValue.plain (PyValue.scalar 1)) =
      Except.error CompErr.attributeErrorNoAppend ∧
    CompositeDataSetAttributes.set_array
        ⟨[⟨⟨4, 0, 0, 0⟩, ⟨[]⟩⟩], FieldAssociation.POINT, [], []⟩ "A"
        (CompValue.composite [some ⟨[4], [1], 0, [1, 2, 3, 4]⟩]) =
      Except.ok
        ⟨[⟨⟨4, 0, 0, 0⟩, ⟨[("A", ⟨[4], [1, 2, 3, 4]⟩)]⟩⟩],
          FieldAssociation.POINT, ["A"],
          [("A", some ⟨[some ⟨[4], [1, 2, 3, 4]⟩]⟩)]⟩ :=
  ⟨rfl, rfl⟩

/-- C9: `get_array` on a name outside the union's known keys returns the
NoneArray sentinel without error and without touching state; on a known
name it returns the cached composite array when the weak reference is
still alive, and otherwise synthesizes a fresh composite array spanning
all blocks (one optional entry per block) and re-caches it. -/
theorem C9_composite_get_sentinel_and_weak_cache
    (u : CompositeDataSetAttributes) (name : String) :
    (name ∉ u.ArrayNames →
      u.get_array name = (CompGetResult.noneArray, u)) ∧
    (name ∈ u.ArrayNames →
      (∀ arr : VTKCompositeDataArray,
        u.Arrays.find? (fun p => p.1 == name) = some (name, some arr) →
        u.get_array name = (CompGetResult.array arr, u)) ∧
      ((u.Arrays.find? (fun p => p.1 == name) = none ∨
        u.Arrays.find? (fun p => p.1 == name) = some (name, none)) →
        u.get_array name =
          (CompGetResult.array (u.synthesize name),
            { u with
              Arrays := cacheUpdate u.Arrays name (some (u.synthesize name)) }))) ∧
    (u.synthesize name).entries.length = u.blocks.length := by
  refine ⟨?_, ?_, by simp [CompositeDataSetAttributes.synthesize]⟩
  · intro h
    unfold CompositeDataSetAttributes.get_array
    rw [if_neg h]
  · intro h
    constructor
    · intro arr hfind
      unfold CompositeDataSetAttributes.get_array
      rw [if_pos h, hfind]
    · intro hcase
      unfold CompositeDataSetAttributes.get_array
      rw [if_pos h]
      rcases hcase with hc | hc <;> rw [hc]

/-- Witness for C9 at a three-block union whose middle block misses "A":
an unknown name gives the sentinel; "A" synthesizes entries with the
middle slot as the placeholder. -/
theorem C9_composite_get_sentinel_and_weak_cache_witness :
    CompositeDataSetAttributes.get_array
        ⟨[⟨⟨0, 0, 0, 0⟩, ⟨[("A", ⟨[1], [1]⟩)]⟩⟩,
          ⟨⟨0, 0, 0, 0⟩, ⟨[]⟩⟩,
          ⟨⟨0, 0, 0, 0⟩, ⟨[("A", ⟨[1], [2]⟩)]⟩⟩],
          FieldAssociation.POINT, ["A"], []⟩ "Z" =
      (CompGetResult.noneArray,
        ⟨[⟨⟨0, 0, 0, 0⟩, ⟨[("A", ⟨[1], [1]⟩)]⟩⟩,
          ⟨⟨0, 0, 0, 0⟩, ⟨[]⟩⟩,
          ⟨⟨0, 0, 0, 0⟩, ⟨[("A", ⟨[1], [2]⟩)]⟩⟩],
          FieldAssociation.POINT, ["A"], []⟩) ∧
    (CompositeDataSetAttributes.get_array
        ⟨[⟨⟨0, 0, 0, 0⟩, ⟨[("A", ⟨[1], [1]⟩)]⟩⟩,
          ⟨⟨0, 0, 0, 0⟩, ⟨[]⟩⟩,
          ⟨⟨0, 0, 0, 0⟩, ⟨[("A", ⟨[1], [2]⟩)]⟩⟩],
          FieldAssociation.POINT, ["A"], []⟩ "A").1 =
      CompGetResult.array ⟨[some ⟨[1], [1]⟩, none, some ⟨[1], [2]⟩]⟩ := by
  have h1 := (C9_composite_get_sentinel_and_weak_cache
    ⟨[⟨⟨0, 0, 0, 0⟩, ⟨[("A", ⟨[1], [1]⟩)]⟩⟩,
      ⟨⟨0, 0, 0, 0⟩, ⟨[]⟩⟩,
      ⟨⟨0, 0, 0, 0⟩, ⟨[("A", ⟨[1], [2]⟩)]⟩⟩],
      FieldAssociation.POINT, ["A"], []⟩ "Z").1 (by decide)
  have h2 := ((C9_composite_get_sentinel_and_weak_cache
    ⟨[⟨⟨0, 0, 0, 0⟩, ⟨[("A", ⟨[1], [1]⟩)]⟩⟩,
      ⟨⟨0, 0, 0, 0⟩, ⟨[]⟩⟩,
      ⟨⟨0, 0, 0, 0⟩, ⟨[("A", ⟨[1], [2]⟩)]⟩⟩],
      FieldAssociation.POINT, ["A"], []⟩ "A").2.1 (by decide)).2 (Or.inl rfl)
  refine ⟨h1, ?_⟩
  rw [h2]
  decide

end VtkOverride
